import Mathlib

/-!
Shallow embedding of the batch-dispatch / failure-isolation / persistence core of
`src/automated-cultural-narrative-generator.py` (class `ScalableCastleProcessor`),
together with proofs of the specified properties.

Modelling conventions:
* The per-item operation `process_single_castle` performs network and database
  I/O; its outcome on a given castle is abstracted as an oracle
  `op : CastleData → Except PyErr ρ` (the value its task resolves to, or the
  exception its task raises).
* `asyncio.gather(*tasks, return_exceptions=True)` returns the settled results
  in submission order, each either the value or the raised exception; this is
  embedded as `List.map op`.
* The `logger` side channel is made explicit: functions return the list of
  emitted log lines alongside their Python return value.
* Machine floats of the source (`time.time()`, `quality_score`) are abstracted
  as integers carried through unchanged; no claim computes with them.
-/

namespace CastleGen

/-- The `CastleData` dataclass from the source. Only `name` is consulted by the
dispatch logic (it identifies the item in failure logs); the remaining dataclass
fields are payload read solely by the per-item operation, which is abstracted
here, so they are kept as an opaque blob. -/
structure CastleData where
  name : String
  location : String := ""
  country : String := ""
deriving DecidableEq, Repr

/-- A Python exception value as it is observed by
`asyncio.gather(..., return_exceptions=True)` or by a `try`/`except` block:
`valueError` for the `range()` step error, `exception` for anything raised by a
per-item task. -/
inductive PyErr where
  | valueError (msg : String)
  | exception (msg : String)
deriving DecidableEq, Repr

/-- `str(e)` for an exception, as interpolated into log lines. -/
def PyErr.str : PyErr → String
  | .valueError m => m
  | .exception m => m

/-- `asyncio.gather(*tasks, return_exceptions=True)` for the tasks created at
source lines 418–421: one task per castle of the batch, settled results
returned in submission order. -/
def gather_return_exceptions {ρ : Type} (op : CastleData → Except PyErr ρ)
    (castle_batch : List CastleData) : List (Except PyErr ρ) :=
  castle_batch.map op

/-- The `logger.error(f"Error processing {castle_batch[i].name}: {result}")`
line emitted at source line 429. -/
def error_log_line (castle : CastleData) (e : PyErr) : String :=
  "Error processing " ++ castle.name ++ ": " ++ e.str

/-- The result-filtering loop of `process_castle_batch` (source lines 426–431):
walk the gathered results paired with the castles that submitted them,
appending each success to `successful_results` in order and emitting one error
log line per exception. Returns `(successful_results, emitted log lines)`.
The mismatched-length cases are unreachable: `gather` returns exactly one
result per task. -/
def filter_results {ρ : Type} : List CastleData → List (Except PyErr ρ) →
    List ρ × List String
  | _, [] => ([], [])
  | [], _ :: _ => ([], [])
  | castle :: cs, r :: rs =>
    let rest := filter_results cs rs
    match r with
    | .error e => (rest.1, error_log_line castle e :: rest.2)
    | .ok v => (v :: rest.1, rest.2)

/-- `ScalableCastleProcessor.process_castle_batch` (source lines 416–433):
gather all per-item outcomes of the batch, keep the successes in submission
order, log each failure. First component is the Python return value
(`successful_results`); second component is the failure log. -/
def process_castle_batch {ρ : Type} (op : CastleData → Except PyErr ρ)
    (castle_batch : List CastleData) : List ρ × List String :=
  filter_results castle_batch (gather_return_exceptions op castle_batch)

/-- Python `range(start, stop, step)` for a nonnegative `step`; the `step = 0`
case (which raises `ValueError` in Python) is guarded by the caller and yields
`[]` here. For `step < 0` with `start = 0 ≤ stop`, Python's range is empty,
matching the caller's treatment below. -/
def rangeStep (start stop step : Nat) : List Nat :=
  if _h : 0 < step ∧ start < stop then
    start :: rangeStep (start + step) stop step
  else []
termination_by stop - start
decreasing_by omega

/-- The batch partition built by the loop header at source lines 516–517:
`for i in range(0, total_castles, batch_size): batch = castle_data[i:i + batch_size]`.
The Python slice `xs[i:i+b]` is `(xs.drop i).take b`. -/
def source_batches {α : Type} (castle_data : List α) (batch_size : Nat) :
    List (List α) :=
  (rangeStep 0 castle_data.length batch_size).map
    (fun i => (castle_data.drop i).take batch_size)

/-- Structural reference form of the partition: repeatedly split off the first
`b + 1` elements. Proved equal to `source_batches` for positive batch size. -/
def chunksRec {α : Type} (b : Nat) : List α → List (List α)
  | [] => []
  | x :: xs => ((x :: xs).take (b + 1)) :: chunksRec b (xs.drop b)
termination_by l => l.length
decreasing_by simp [List.length_drop]; omega

/-- `ScalableCastleProcessor.process_thousands_of_castles` (source lines
505–534), applied to the already-loaded castle list (the loading stub
`_load_external_castle_data` ignores its source path and returns a fixed
sample list; it is outside the dispatch core). `batch_size = 0` makes
`range` raise `ValueError` before the first iteration; a negative
`batch_size` makes `range(0, N, batch_size)` empty, so the loop body never
runs and `processed_count = 0` is returned. Otherwise each batch is awaited
in turn and `processed_count += len(results)` accumulates the successes; the
`try`/`except` around the batch is dead code because `gather` with
`return_exceptions=True` absorbs every per-item exception. The Python return
value is `processed_count`. -/
def process_thousands_of_castles {ρ : Type} (op : CastleData → Except PyErr ρ)
    (castle_data : List CastleData) (batch_size : Int) : Except PyErr Nat :=
  if batch_size = 0 then
    .error (.valueError "range() arg 3 must not be zero")
  else if batch_size < 0 then
    .ok 0
  else
    .ok ((source_batches castle_data batch_size.toNat).foldl
      (fun processed_count batch =>
        processed_count + (process_castle_batch op batch).1.length) 0)

/-!
The persistence sink: `setup_database` (source lines 397–414) and
`_store_narrative` (source lines 485–503) against the SQLite file.
The table `castle_narratives` has a `UNIQUE` column `castle_name`;
`INSERT OR REPLACE` deletes any row conflicting on a unique column and then
inserts the new row.
-/

/-- The slice of a generated narrative dict that `_store_narrative` writes:
its key, its serialized form (`json.dumps(narrative)`), and
`narrative["processingMetadata"]["dataQuality"]` (a float in the source,
abstracted as an integer token carried through unchanged). -/
structure Narrative where
  castle_name : String
  payload : String
  dataQuality : Int
deriving DecidableEq, Repr

/-- One row of the `castle_narratives` table (the `id` autoincrement column is
omitted: nothing reads it and replacement reassigns it). -/
structure NarrativeRow where
  castle_name : String
  country : String
  generated_narrative : String
  processing_timestamp : Nat
  quality_score : Int
deriving DecidableEq, Repr

/-- SQLite `INSERT OR REPLACE` into a table whose `castle_name` column is
`UNIQUE`: every row conflicting on `castle_name` is deleted, then the new row
is appended. -/
def insert_or_replace (rows : List NarrativeRow) (r : NarrativeRow) :
    List NarrativeRow :=
  rows.filter (fun row => row.castle_name ≠ r.castle_name) ++ [r]

/-- `ScalableCastleProcessor._store_narrative` (source lines 485–503): one
`INSERT OR REPLACE` writing key, literal country `"Unknown"`, the serialized
narrative, the wall-clock timestamp `now` (`time.time()`), and the quality
score. -/
def store_narrative (rows : List NarrativeRow) (narrative : Narrative)
    (now : Nat) : List NarrativeRow :=
  insert_or_replace rows
    { castle_name := narrative.castle_name
      country := "Unknown"
      generated_narrative := narrative.payload
      processing_timestamp := now
      quality_score := narrative.dataQuality }

/-- The rows of the sink after a sequence of `_store_narrative` calls starting
from an empty table. -/
def sink_after (calls : List (Narrative × Nat)) : List NarrativeRow :=
  calls.foldl (fun rows p => store_narrative rows p.1 p.2) []

/-- The schema side of one SQLite database file: the list of its tables
(plus its rows, unaffected by DDL). -/
structure SQLiteDb where
  tables : List String
  rows : List NarrativeRow
deriving DecidableEq, Repr

/-- `CREATE TABLE` / `CREATE TABLE IF NOT EXISTS name (...)`: plain `CREATE`
fails when the table already exists; with `IF NOT EXISTS` the statement is a
no-op in that case. -/
def create_table (if_not_exists : Bool) (tbl : String) (db : SQLiteDb) :
    Except String SQLiteDb :=
  if tbl ∈ db.tables then
    if if_not_exists then .ok db
    else .error ("table " ++ tbl ++ " already exists")
  else .ok { db with tables := db.tables ++ [tbl] }

/-- `ScalableCastleProcessor.setup_database` (source lines 397–414): execute
`CREATE TABLE IF NOT EXISTS castle_narratives (...)` against whatever database
file is present (possibly from an earlier process). -/
def setup_database (db : SQLiteDb) : Except String SQLiteDb :=
  create_table true "castle_narratives" db

/-- `n` consecutive `setup_database` calls against the same database file,
stopping at the first error (an uncaught Python exception would abort). -/
def setup_database_iter : Nat → SQLiteDb → Except String SQLiteDb
  | 0, db => .ok db
  | n + 1, db => (setup_database db).bind (setup_database_iter n)

/-!
The instrumented (temporal) view of the batch loop, for the sequencing-barrier
and pacing-delay properties. Within one batch the event loop may interleave
the items' start/settle events arbitrarily; that interleaving is a parameter
`sched`. The `await self.process_castle_batch(batch)` at source line 521
suspends the loop until every task of the batch has settled, so the run's
trace is the concatenation of the batches' event segments in batch order,
each followed by the `await asyncio.sleep(1)` of source line 527.
-/

/-- An intra-batch event produced by the event loop while one batch is in
flight: task `itemIdx` of the batch starts, or settles (successfully or not). -/
inductive IntraEv where
  | start (itemIdx : Nat)
  | settle (itemIdx : Nat) (ok : Bool)
deriving DecidableEq, Repr

/-- A trace event of the whole run: an item event tagged with the index of the
batch it belongs to, or an inter-batch sleep of the given duration. -/
inductive Ev where
  | start (batchIdx itemIdx : Nat)
  | settle (batchIdx itemIdx : Nat) (ok : Bool)
  | sleep (duration : Nat)
deriving DecidableEq, Repr

/-- The batch an event belongs to (`none` for the inter-batch sleep). -/
def Ev.batchIdx? : Ev → Option Nat
  | .start k _ => some k
  | .settle k _ _ => some k
  | .sleep _ => none

/-- Whether an event is an inter-batch pacing sleep. -/
def Ev.isSleep : Ev → Bool
  | .sleep _ => true
  | _ => false

/-- Tag an intra-batch event with its batch index. -/
def tagBatch (k : Nat) : IntraEv → Ev
  | .start i => .start k i
  | .settle i ok => .settle k i ok

/-- The event trace of one run of the batch loop (source lines 516–527):
for each batch in partition order, the event loop's interleaving of that
batch's item events (all settled before the `await` returns), then the
hard-coded `asyncio.sleep(1)`. `sched` chooses the intra-batch interleaving
from the batch's contents. -/
def run_trace (sched : List CastleData → List IntraEv)
    (castle_data : List CastleData) (batch_size : Nat) : List Ev :=
  (((source_batches castle_data batch_size).enum).map
    (fun p => (sched p.2).map (tagBatch p.1) ++ [Ev.sleep 1])).flatten

/-- Propositional equality of settled task outcomes is decidable (needed to
evaluate the dispatcher on concrete inputs). -/
instance {ε α : Type} [DecidableEq ε] [DecidableEq α] :
    DecidableEq (Except ε α) := fun x y =>
  match x, y with
  | .error a, .error b => decidable_of_iff (a = b) (by simp)
  | .error _, .ok _ => isFalse (by simp)
  | .ok _, .error _ => isFalse (by simp)
  | .ok a, .ok b => decidable_of_iff (a = b) (by simp)

/-!
Concrete items and operations for the scenario of spec §8
(`items [X1, X2, X3], batch_size = 2, operation succeeds for X1, X3 and
fails for X2`) and for evaluating the dispatcher at explicit inputs.
-/

def castleX1 : CastleData := { name := "X1" }

def castleX2 : CastleData := { name := "X2" }

def castleX3 : CastleData := { name := "X3" }

/-- The §8 scenario operation: succeeds (with the castle's name as result)
for every castle except `X2`, whose task raises. -/
def scenario_op : CastleData → Except PyErr String :=
  fun c => if c.name = "X2" then .error (.exception "boom") else .ok c.name

/-- An operation whose task always succeeds. -/
def all_ok_op : CastleData → Except PyErr String := fun c => .ok c.name

/-- An operation whose task always raises. -/
def all_fail_op : CastleData → Except PyErr String :=
  fun _ => .error (.exception "boom")

/-- One concrete event-loop interleaving for a batch in flight, used to
evaluate `run_trace` at explicit inputs. -/
def demo_sched : List CastleData → List IntraEv :=
  fun batch => (List.range batch.length).flatMap
    (fun i => [IntraEv.start i, IntraEv.settle i true])

/-!
### Structure of `process_castle_batch`

The gathered result list is in submission order, so the batch's return value
is the order-preserving filter of the successes and the failure log is the
order-preserving projection of the errors.
-/

/-- The per-error log line produced for one castle, or `none` on success. -/
def log_of_outcome {ρ : Type} (op : CastleData → Except PyErr ρ)
    (c : CastleData) : Option String :=
  match op c with
  | .error e => some (error_log_line c e)
  | .ok _ => none

@[simp] theorem toOption_ok {ε α : Type} (a : α) :
    (Except.ok a : Except ε α).toOption = some a := rfl

@[simp] theorem toOption_error {ε α : Type} (e : ε) :
    (Except.error e : Except ε α).toOption = none := rfl

@[simp] theorem isOk_ok {ε α : Type} (a : α) :
    (Except.ok a : Except ε α).isOk = true := rfl

@[simp] theorem isOk_error {ε α : Type} (e : ε) :
    (Except.error e : Except ε α).isOk = false := rfl

@[simp] theorem log_of_outcome_ok {ρ : Type} {op : CastleData → Except PyErr ρ}
    {c : CastleData} {v : ρ} (h : op c = .ok v) :
    log_of_outcome op c = none := by
  simp [log_of_outcome, h]

@[simp] theorem log_of_outcome_error {ρ : Type}
    {op : CastleData → Except PyErr ρ} {c : CastleData} {e : PyErr}
    (h : op c = .error e) :
    log_of_outcome op c = some (error_log_line c e) := by
  simp [log_of_outcome, h]

theorem filter_results_map_eq {ρ : Type} (op : CastleData → Except PyErr ρ)
    (batch : List CastleData) :
    filter_results batch (batch.map op)
      = (batch.filterMap (fun c => (op c).toOption),
         batch.filterMap (log_of_outcome op)) := by
  induction batch with
  | nil => rfl
  | cons c cs ih =>
    simp only [List.map_cons, filter_results, ih]
    cases h : op c <;>
      simp [List.filterMap_cons, log_of_outcome, h, Except.toOption]

theorem pcb_fst {ρ : Type} (op : CastleData → Except PyErr ρ)
    (batch : List CastleData) :
    (process_castle_batch op batch).1
      = batch.filterMap (fun c => (op c).toOption) := by
  rw [process_castle_batch, gather_return_exceptions, filter_results_map_eq]

theorem pcb_snd {ρ : Type} (op : CastleData → Except PyErr ρ)
    (batch : List CastleData) :
    (process_castle_batch op batch).2 = batch.filterMap (log_of_outcome op) := by
  rw [process_castle_batch, gather_return_exceptions, filter_results_map_eq]

theorem length_filterMap_toOption {ρ : Type} (op : CastleData → Except PyErr ρ)
    (l : List CastleData) :
    (l.filterMap (fun c => (op c).toOption)).length
      = l.countP (fun c => (op c).isOk) := by
  induction l with
  | nil => rfl
  | cons c cs ih =>
    cases h : op c <;>
      simp [List.filterMap_cons, List.countP_cons, h, ih]

theorem length_filterMap_log {ρ : Type} (op : CastleData → Except PyErr ρ)
    (l : List CastleData) :
    (l.filterMap (log_of_outcome op)).length
      = l.countP (fun c => !(op c).isOk) := by
  induction l with
  | nil => rfl
  | cons c cs ih =>
    cases h : op c <;>
      simp [List.filterMap_cons, List.countP_cons, h, ih]

/-- **C10** (outcome conservation). Every item of a batch submitted to
`process_castle_batch` yields exactly one outcome — it lands either in the
returned successful-results list or in the failure log — so the number of
returned successes plus the number of logged failures equals the batch size. -/
theorem outcome_conservation {ρ : Type} (op : CastleData → Except PyErr ρ)
    (batch : List CastleData) :
    (process_castle_batch op batch).1.length
      + (process_castle_batch op batch).2.length = batch.length := by
  rw [pcb_fst, pcb_snd]
  induction batch with
  | nil => rfl
  | cons c cs ih =>
    cases h : op c with
    | error e =>
      simp only [List.filterMap_cons, h, toOption_error,
        log_of_outcome_error h, List.length_cons]
      omega
    | ok v =>
      simp only [List.filterMap_cons, h, toOption_ok,
        log_of_outcome_ok h, List.length_cons]
      omega

/-- **C5** (stable filtering of successes). The successful-results list
returned by `process_castle_batch` preserves the original submission order of
the successful items: it is the submitted batch filtered to the items whose
operation succeeded (independent of completion order, which the gathered
result list never reflects). In particular, for a batch `[a, b, c, d]` where
only `b` fails, the returned list is the results of `[a, c, d]`. -/
theorem stable_filter_of_successes {ρ : Type} (op : CastleData → Except PyErr ρ)
    (batch : List CastleData) :
    (process_castle_batch op batch).1
      = batch.filterMap (fun c => (op c).toOption)
    ∧ ∀ (a b c d : CastleData) (f : CastleData → ρ) (e : PyErr)
        (op₂ : CastleData → Except PyErr ρ),
        op₂ a = .ok (f a) → op₂ b = .error e → op₂ c = .ok (f c) →
        op₂ d = .ok (f d) →
        (process_castle_batch op₂ [a, b, c, d]).1 = [f a, f c, f d] := by
  refine ⟨pcb_fst op batch, ?_⟩
  intro a b c d f e op₂ ha hb hc hd
  rw [pcb_fst]
  simp [List.filterMap_cons, ha, hb, hc, hd, Except.toOption]

/-- Witness for C5: evaluating the batch `[X1, X2, X3, X1]` under the scenario
operation (only `X2` fails) returns exactly the successes in submission
order. -/
theorem stable_filter_of_successes_witness :
    (process_castle_batch scenario_op [castleX1, castleX2, castleX3, castleX1]).1
      = ["X1", "X3", "X1"] :=
  (stable_filter_of_successes scenario_op []).2 castleX1 castleX2 castleX3
    castleX1 (fun c => c.name) (.exception "boom") scenario_op
    (by decide) (by decide) (by decide) (by decide)

/-- **C1** (per-item failure isolation). If exactly one item of a batch fails
(`op` raises `e` on `bad`, which occurs once in the batch, and returns a
result on every other item), then `process_castle_batch` still returns the
results of all `N - 1` other items in order, excludes the failing item, and
emits exactly one failure log line identifying that item and its error.
Moreover the outcome of any batch depends only on the operation's behaviour
on that batch's own items, so one item's failure cannot alter the outcome of
a sibling-free batch: any batch on which `op` and a non-failing `op'` agree
pointwise is processed identically. -/
theorem per_item_failure_isolation {ρ : Type}
    (op op' : CastleData → Except PyErr ρ) (f : CastleData → ρ)
    (batch : List CastleData) (bad : CastleData) (e : PyErr)
    (hmem : bad ∈ batch) (hcount : batch.count bad = 1)
    (hbad : op bad = .error e)
    (hok : ∀ c ∈ batch, c ≠ bad → op c = .ok (f c)) :
    (process_castle_batch op batch).1.length = batch.length - 1
    ∧ (process_castle_batch op batch).1
        = (batch.filter (fun c => c ≠ bad)).map f
    ∧ (process_castle_batch op batch).2 = [error_log_line bad e]
    ∧ ∀ batch₂ : List CastleData, (∀ c ∈ batch₂, op c = op' c) →
        process_castle_batch op batch₂ = process_castle_batch op' batch₂ := by
  have hsucc : ∀ l : List CastleData, (∀ c ∈ l, c ≠ bad → op c = .ok (f c)) →
      l.filterMap (fun c => (op c).toOption)
        = (l.filter (fun c => c ≠ bad)).map f := by
    intro l
    induction l with
    | nil => intro _; rfl
    | cons c cs ih =>
      intro h
      have htail := ih (fun c' hc' => h c' (List.mem_cons_of_mem c hc'))
      by_cases hc : c = bad
      · subst hc
        simp [List.filterMap_cons, List.filter_cons, hbad, htail]
      · have hco : op c = .ok (f c) := h c (List.mem_cons_self c cs) hc
        simp [List.filterMap_cons, List.filter_cons, hco, hc, htail]
  have hlen : ∀ l : List CastleData,
      (l.filter (fun c => c ≠ bad)).length + l.count bad = l.length := by
    intro l
    induction l with
    | nil => rfl
    | cons c cs ih =>
      by_cases hc : c = bad <;>
        simp [List.filter_cons, List.count_cons, hc] at ih ⊢ <;> omega
  have hlog : ∀ l : List CastleData, l.count bad = 1 →
      (∀ c ∈ l, c ≠ bad → op c = .ok (f c)) →
      l.filterMap (log_of_outcome op) = [error_log_line bad e] := by
    intro l
    induction l with
    | nil => intro h1; simp [List.count_nil] at h1
    | cons c cs ih =>
      intro hc1 hko
      by_cases hc : c = bad
      · subst hc
        have h0 : cs.count c = 0 := by
          simp [List.count_cons] at hc1; omega
        have hnot : c ∉ cs := List.count_eq_zero.mp h0
        have htail : cs.filterMap (log_of_outcome op) = [] := by
          rw [List.filterMap_eq_nil_iff]
          intro c' hc'
          exact log_of_outcome_ok
            (hko c' (List.mem_cons_of_mem c hc')
              (fun heq => hnot (heq ▸ hc')))
        simp [List.filterMap_cons, log_of_outcome_error hbad, htail]
      · have hco : op c = .ok (f c) := hko c (List.mem_cons_self c cs) hc
        have hc1' : cs.count bad = 1 := by
          simp [List.count_cons, hc, Ne.symm hc] at hc1 ⊢
          omega
        simp [List.filterMap_cons, log_of_outcome_ok hco]
        exact ih hc1' (fun c' hc' => hko c' (List.mem_cons_of_mem c hc'))
  refine ⟨?_, ?_, ?_, ?_⟩
  · rw [pcb_fst, hsucc batch hok, List.length_map]
    have := hlen batch
    omega
  · rw [pcb_fst]; exact hsucc batch hok
  · rw [pcb_snd]; exact hlog batch hcount hok
  · intro batch₂ hag
    have h1 : batch₂.filterMap (fun c => (op c).toOption)
        = batch₂.filterMap (fun c => (op' c).toOption) :=
      List.filterMap_congr (fun c hc => by rw [hag c hc])
    have h2 : batch₂.filterMap (log_of_outcome op)
        = batch₂.filterMap (log_of_outcome op') :=
      List.filterMap_congr (fun c hc => by
        simp [log_of_outcome, hag c hc])
    have hp1 := pcb_fst op batch₂
    have hp2 := pcb_snd op batch₂
    have hq1 := pcb_fst op' batch₂
    have hq2 := pcb_snd op' batch₂
    exact Prod.ext (by rw [hp1, hq1, h1]) (by rw [hp2, hq2, h2])

/-- Witness for C1: in the batch `[X1, X2, X3]` under the scenario operation
only `X2` fails; the other two results are returned in order, the failing
item is excluded, and exactly its log line is emitted. -/
theorem per_item_failure_isolation_witness :
    (process_castle_batch scenario_op [castleX1, castleX2, castleX3]).1.length
        = 2
    ∧ (process_castle_batch scenario_op [castleX1, castleX2, castleX3]).1
        = ([castleX1, castleX2, castleX3].filter
            (fun c => c ≠ castleX2)).map (fun c => c.name)
    ∧ (process_castle_batch scenario_op [castleX1, castleX2, castleX3]).2
        = [error_log_line castleX2 (.exception "boom")]
    ∧ ∀ batch₂ : List CastleData,
        (∀ c ∈ batch₂, scenario_op c = all_ok_op c) →
        process_castle_batch scenario_op batch₂
          = process_castle_batch all_ok_op batch₂ :=
  per_item_failure_isolation scenario_op all_ok_op (fun c => c.name)
    [castleX1, castleX2, castleX3] castleX2 (.exception "boom")
    (by decide) (by decide) (by decide) (by decide)

/-!
### The batch partition (source lines 516–517)

`source_batches` (the Python `range`/slice loop) equals the structural
chunking `chunksRec`, from which concatenation, count and per-index slice
facts follow.
-/

theorem rangeStep_map_slice {α : Type} (b : Nat) (items : List α) (s : Nat) :
    (rangeStep s items.length (b + 1)).map
        (fun i => (items.drop i).take (b + 1))
      = chunksRec b (items.drop s) := by
  rw [rangeStep]
  by_cases h : s < items.length
  · rw [dif_pos ⟨Nat.succ_pos b, h⟩]
    obtain ⟨x, xs, hx⟩ : ∃ x xs, items.drop s = x :: xs := by
      cases hd : items.drop s with
      | nil =>
        exact absurd (List.drop_eq_nil_iff.mp hd) (by omega)
      | cons y ys => exact ⟨y, ys, rfl⟩
    have hdd : items.drop (s + (b + 1)) = xs.drop b := by
      have h1 : (items.drop s).drop (b + 1) = items.drop (s + (b + 1)) :=
        List.drop_drop (b + 1) s items
      rw [← h1, hx, List.drop_succ_cons]
    simp only [List.map_cons]
    rw [hx, chunksRec, rangeStep_map_slice b items (s + (b + 1)), hdd]
  · rw [dif_neg (by omega)]
    rw [List.drop_eq_nil_of_le (by omega), List.map_nil, chunksRec]
termination_by items.length - s
decreasing_by omega

theorem source_batches_eq_chunksRec {α : Type} (items : List α) (b : Nat) :
    source_batches items (b + 1) = chunksRec b items := by
  have := rangeStep_map_slice b items 0
  rwa [List.drop_zero] at this

theorem chunksRec_flatten {α : Type} (b : Nat) (l : List α) :
    (chunksRec b l).flatten = l := by
  cases l with
  | nil => rw [chunksRec]; rfl
  | cons x xs =>
    rw [chunksRec, List.flatten_cons, chunksRec_flatten b (xs.drop b),
      List.take_succ_cons, List.cons_append, List.take_append_drop]
termination_by l.length
decreasing_by simp; omega

theorem chunksRec_length {α : Type} (b : Nat) (l : List α) :
    (chunksRec b l).length = (l.length + b) / (b + 1) := by
  cases l with
  | nil =>
    rw [chunksRec]
    simp [Nat.div_eq_of_lt (Nat.lt_succ_self b)]
  | cons x xs =>
    rw [chunksRec, List.length_cons, chunksRec_length b (xs.drop b),
      List.length_drop]
    by_cases hb : b ≤ xs.length
    · have h1 : xs.length - b + b = xs.length := by omega
      have h2 : (x :: xs).length + b = xs.length + (b + 1) := by
        simp; omega
      rw [h1, h2, Nat.add_div_right _ (Nat.succ_pos b)]
    · have h1 : xs.length - b + b = b := by omega
      have h2 : b / (b + 1) = 0 := Nat.div_eq_of_lt (Nat.lt_succ_self b)
      have h3 : ((x :: xs).length + b) / (b + 1) = 1 :=
        Nat.div_eq_of_lt_le (by simp; omega) (by simp; omega)
      rw [h1, h2, h3]
termination_by l.length
decreasing_by simp; omega

theorem chunksRec_getElem? {α : Type} (b : Nat) (l : List α) (k : Nat)
    (hk : k < (chunksRec b l).length) :
    (chunksRec b l)[k]? = some ((l.drop (k * (b + 1))).take (b + 1)) := by
  induction k generalizing l with
  | zero =>
    cases l with
    | nil => rw [chunksRec] at hk; simp at hk
    | cons x xs => rw [chunksRec]; simp
  | succ k' ih =>
    cases l with
    | nil => rw [chunksRec] at hk; simp at hk
    | cons x xs =>
      rw [chunksRec] at hk ⊢
      simp only [List.length_cons, Nat.succ_lt_succ_iff] at hk
      rw [List.getElem?_cons_succ, ih (xs.drop b) hk]
      have hdd : (xs.drop b).drop (k' * (b + 1)) =
          (x :: xs).drop ((k' + 1) * (b + 1)) := by
        rw [List.drop_drop]
        have heq : b + k' * (b + 1) + 1 = (k' + 1) * (b + 1) := by ring
        rw [← List.drop_succ_cons (l := xs) (n := b + k' * (b + 1)), heq]
      rw [hdd]

/-- **C2** (partition fidelity). For every item list and positive batch size,
`process_thousands_of_castles`' loop header partitions the list into
contiguous slices equal to pure sequential slicing — batch `k` is items
`k*B .. k*B+B-1`, the last batch possibly smaller — producing
`ceil(N/B) = (N + B - 1) / B` batches whose in-order concatenation reproduces
the original list exactly. -/
theorem partition_fidelity {α : Type} (castle_data : List α)
    (batch_size : Nat) (hB : 0 < batch_size) :
    (source_batches castle_data batch_size).flatten = castle_data
    ∧ (source_batches castle_data batch_size).length
        = (castle_data.length + batch_size - 1) / batch_size
    ∧ ∀ k, k < (source_batches castle_data batch_size).length →
        (source_batches castle_data batch_size)[k]?
          = some ((castle_data.drop (k * batch_size)).take batch_size) := by
  obtain ⟨b, rfl⟩ : ∃ b, batch_size = b + 1 :=
    ⟨batch_size - 1, by omega⟩
  rw [source_batches_eq_chunksRec]
  refine ⟨chunksRec_flatten b castle_data, ?_, ?_⟩
  · rw [chunksRec_length]
    have h4 : castle_data.length + (b + 1) - 1 = castle_data.length + b := by
      omega
    rw [h4]
  · intro k hk
    exact chunksRec_getElem? b castle_data k hk

/-- Witness for C2: the §8 scenario list `[X1, X2, X3]` with batch size 2 is
partitioned into the two batches `[[X1, X2], [X3]]`. -/
theorem partition_fidelity_witness :
    (source_batches [castleX1, castleX2, castleX3] 2).flatten
        = [castleX1, castleX2, castleX3]
    ∧ (source_batches [castleX1, castleX2, castleX3] 2).length = 2
    ∧ (source_batches [castleX1, castleX2, castleX3] 2)[0]?
        = some [castleX1, castleX2]
    ∧ (source_batches [castleX1, castleX2, castleX3] 2)[1]?
        = some [castleX3] := by
  have h := partition_fidelity [castleX1, castleX2, castleX3] 2 (by decide)
  refine ⟨h.1, h.2.1, ?_, ?_⟩
  · have h0 := h.2.2 0 (by rw [h.2.1]; decide)
    simpa using h0
  · have h1 := h.2.2 1 (by rw [h.2.1]; decide)
    simpa using h1

/-!
### The full run (source lines 505–534)

`processed_count` accumulates `len(results)` over the batches, which equals
the number of items whose operation succeeded; `range` raises only for
`batch_size == 0`.
-/

theorem foldl_add_length {ρ : Type} (op : CastleData → Except PyErr ρ)
    (batches : List (List CastleData)) (n : Nat) :
    batches.foldl
        (fun acc bt => acc + (process_castle_batch op bt).1.length) n
      = n + (batches.map
          (fun bt => (process_castle_batch op bt).1.length)).sum := by
  induction batches generalizing n with
  | nil => simp
  | cons bt bts ih =>
    rw [List.foldl_cons, ih, List.map_cons, List.sum_cons]
    omega

theorem process_thousands_pos_eq {ρ : Type} (op : CastleData → Except PyErr ρ)
    (castle_data : List CastleData) (batch_size : Int)
    (hB : 0 < batch_size) :
    process_thousands_of_castles op castle_data batch_size
      = .ok (castle_data.countP (fun c => (op c).isOk)) := by
  have h0 : ¬ batch_size = 0 := by omega
  have h1 : ¬ batch_size < 0 := by omega
  rw [process_thousands_of_castles, if_neg h0, if_neg h1]
  obtain ⟨b, hb⟩ : ∃ b : Nat, batch_size.toNat = b + 1 :=
    ⟨batch_size.toNat - 1, by omega⟩
  rw [hb, foldl_add_length, Nat.zero_add]
  have h2 : (source_batches castle_data (b + 1)).map
        (fun bt => (process_castle_batch op bt).1.length)
      = (source_batches castle_data (b + 1)).map
          (List.countP (fun c => (op c).isOk)) :=
    List.map_congr_left
      (fun bt _ => by rw [pcb_fst, length_filterMap_toOption])
  rw [h2, ← List.countP_flatten, source_batches_eq_chunksRec,
    chunksRec_flatten]

/-- **C3 counterexample**. A malformed call with `batch_size = -1 ≤ 0` is not
surfaced as a programming-error fault: `range(0, N, -1)` is empty, so the run
silently returns `processed_count = 0` without raising, even though every
item's operation would fail. -/
theorem negative_batch_size_not_rejected :
    process_thousands_of_castles all_fail_op [castleX1] (-1) = .ok 0
    ∧ (-1 : Int) < 0 := by
  exact ⟨rfl, by decide⟩

/-- **C3 amended**. The dispatcher never raises because of per-item operation
failures: for every positive `batch_size` it returns a result (the success
count) for every operation, including one that fails on every item. It raises
(`ValueError` from `range`) exactly when `batch_size = 0`; a *negative*
`batch_size` is not surfaced as a fault — the loop body never runs and the
call returns `0`. -/
theorem dispatcher_raises_iff_batch_size_zero {ρ : Type}
    (op : CastleData → Except PyErr ρ) (castle_data : List CastleData)
    (batch_size : Int) :
    (batch_size = 0 →
      process_thousands_of_castles op castle_data batch_size
        = .error (.valueError "range() arg 3 must not be zero"))
    ∧ (batch_size < 0 →
      process_thousands_of_castles op castle_data batch_size = .ok 0)
    ∧ (0 < batch_size →
      process_thousands_of_castles op castle_data batch_size
        = .ok (castle_data.countP (fun c => (op c).isOk))) := by
  refine ⟨?_, ?_, ?_⟩
  · intro h
    rw [process_thousands_of_castles, if_pos h]
  · intro h
    rw [process_thousands_of_castles, if_neg (by omega), if_pos h]
  · intro h
    exact process_thousands_pos_eq op castle_data batch_size h

/-- Witness for C3: calling with `batch_size = 0` raises the `range`
`ValueError` immediately. -/
theorem dispatcher_raises_iff_batch_size_zero_witness :
    process_thousands_of_castles all_fail_op [castleX1] 0
      = .error (.valueError "range() arg 3 must not be zero") :=
  (dispatcher_raises_iff_batch_size_zero all_fail_op [castleX1] 0).1 rfl

/-- **C7 counterexample**. The run's return value is a bare integer that
cannot contain `total_submitted`, `total_failed` or per-batch timings: the §8
scenario (3 items, batch size 2, `X2` fails) and an all-success run over 2
items return the *same* value, although the two runs differ in
`total_submitted` (3 vs 2) and `total_failed` (1 vs 0). No `ProcessingSummary`
is constructed anywhere in the source. -/
theorem run_returns_count_not_summary :
    process_thousands_of_castles scenario_op [castleX1, castleX2, castleX3] 2
      = process_thousands_of_castles all_ok_op [castleX1, castleX3] 2
    ∧ ([castleX1, castleX2, castleX3] : List CastleData).length
        ≠ ([castleX1, castleX3] : List CastleData).length := by
  constructor
  · rw [process_thousands_pos_eq scenario_op _ 2 (by decide),
      process_thousands_pos_eq all_ok_op _ 2 (by decide)]
    decide
  · decide

/-- **C7 amended**. For every item list, operation and positive batch size, a
completed run returns `processed_count`: the plain number of successfully
processed items (for the §8 scenario — 3 items, batch size 2, one failure —
this is `2`). It returns no structured summary: no `total_submitted`, no
`total_failed`, no per-batch timings. -/
theorem run_returns_success_count {ρ : Type}
    (op : CastleData → Except PyErr ρ) (castle_data : List CastleData)
    (batch_size : Int) (hB : 0 < batch_size) :
    process_thousands_of_castles op castle_data batch_size
      = .ok (castle_data.countP (fun c => (op c).isOk)) :=
  process_thousands_pos_eq op castle_data batch_size hB

/-- Witness for C7: the §8 scenario run returns exactly `2`. -/
theorem run_returns_success_count_witness :
    process_thousands_of_castles scenario_op [castleX1, castleX2, castleX3] 2
      = .ok 2 := by
  rw [run_returns_success_count scenario_op [castleX1, castleX2, castleX3] 2
    (by decide)]
  decide

/-!
### The sink (source lines 397–414 and 485–503)
-/

theorem countP_insert_or_replace_le (rows : List NarrativeRow)
    (r : NarrativeRow) (key : String)
    (h : rows.countP (fun row => row.castle_name = key) ≤ 1) :
    (insert_or_replace rows r).countP
      (fun row => row.castle_name = key) ≤ 1 := by
  rw [insert_or_replace, List.countP_append]
  by_cases hk : r.castle_name = key
  · have h0 : (rows.filter
        (fun row => row.castle_name ≠ r.castle_name)).countP
        (fun row => row.castle_name = key) = 0 := by
      rw [List.countP_eq_zero]
      intro row hrow
      rw [List.mem_filter] at hrow
      simp only [ne_eq, decide_not, Bool.not_eq_eq_eq_not, Bool.not_true,
        decide_eq_false_iff_not] at hrow
      simp only [decide_eq_true_eq]
      intro hc
      exact hrow.2 (hk ▸ hc)
    rw [h0]
    simp [List.countP_cons, hk]
  · have h1 : ([r].countP (fun row => row.castle_name = key)) = 0 := by
      simp [List.countP_cons, hk]
    rw [h1]
    have h2 := (List.filter_sublist
      (l := rows) (p := fun row => row.castle_name ≠ r.castle_name)).countP_le
      (p := fun row => row.castle_name = key)
    omega

theorem sink_foldl_at_most_one (calls : List (Narrative × Nat))
    (rows : List NarrativeRow) (key : String)
    (h : rows.countP (fun r => r.castle_name = key) ≤ 1) :
    (calls.foldl (fun db p => store_narrative db p.1 p.2) rows).countP
      (fun r => r.castle_name = key) ≤ 1 := by
  induction calls generalizing rows with
  | nil => exact h
  | cons c cs ih =>
    exact ih _ (countP_insert_or_replace_le rows _ key h)

theorem filter_store_twice (rows : List NarrativeRow) (n₁ n₂ : Narrative)
    (t₁ t₂ : Nat) :
    (store_narrative (store_narrative rows n₁ t₁) n₂ t₂).filter
        (fun r => r.castle_name = n₂.castle_name)
      = [{ castle_name := n₂.castle_name, country := "Unknown",
           generated_narrative := n₂.payload,
           processing_timestamp := t₂, quality_score := n₂.dataQuality }] := by
  conv_lhs => rw [store_narrative, insert_or_replace]
  rw [List.filter_append, List.filter_filter]
  have h0 : (store_narrative rows n₁ t₁).filter
      (fun a => decide (a.castle_name = n₂.castle_name)
        && decide (a.castle_name ≠ n₂.castle_name)) = [] := by
    rw [List.filter_eq_nil_iff]
    intro a _
    by_cases hc : a.castle_name = n₂.castle_name <;> simp [hc]
  rw [h0, List.nil_append, List.filter_cons]
  simp

/-- **C4** (idempotent keyed upsert). After any sequence of `_store_narrative`
calls starting from an empty sink, the table holds at most one row per
`castle_name`; and after writing the same key twice with (possibly) different
payloads, filtering the sink by that key yields exactly one row, carrying the
payload, timestamp and quality score of the *later* write — the earlier write
leaves no history. -/
theorem idempotent_keyed_upsert (calls : List (Narrative × Nat))
    (key : String) (rows : List NarrativeRow) (n₁ n₂ : Narrative)
    (t₁ t₂ : Nat) (h₁ : n₁.castle_name = key) (h₂ : n₂.castle_name = key) :
    (sink_after calls).countP (fun r => r.castle_name = key) ≤ 1
    ∧ (store_narrative (store_narrative rows n₁ t₁) n₂ t₂).filter
        (fun r => r.castle_name = key)
      = [{ castle_name := key, country := "Unknown",
           generated_narrative := n₂.payload,
           processing_timestamp := t₂, quality_score := n₂.dataQuality }] := by
  constructor
  · exact sink_foldl_at_most_one calls [] key (by simp)
  · subst h₂
    exact filter_store_twice rows n₁ n₂ t₁ t₂

/-- Witness for C4: writing key `"X1"` twice from an empty sink leaves exactly
the second record for that key. -/
theorem idempotent_keyed_upsert_witness :
    (sink_after [({ castle_name := "X1", payload := "p1", dataQuality := 3 },
        10)]).countP (fun r => r.castle_name = "X1") ≤ 1
    ∧ (store_narrative (store_narrative []
          { castle_name := "X1", payload := "p1", dataQuality := 3 } 10)
          { castle_name := "X1", payload := "p2", dataQuality := 5 } 20).filter
        (fun r => r.castle_name = "X1")
      = [{ castle_name := "X1", country := "Unknown",
           generated_narrative := "p2",
           processing_timestamp := 20, quality_score := 5 }] :=
  idempotent_keyed_upsert
    [({ castle_name := "X1", payload := "p1", dataQuality := 3 }, 10)] "X1" []
    { castle_name := "X1", payload := "p1", dataQuality := 3 }
    { castle_name := "X1", payload := "p2", dataQuality := 5 } 10 20
    (by decide) (by decide)

/-!
### Schema creation (source lines 397–414)
-/

theorem setup_database_eq (db : SQLiteDb) :
    setup_database db
      = .ok (if "castle_narratives" ∈ db.tables then db
          else { db with tables := db.tables ++ ["castle_narratives"] }) := by
  rw [setup_database, create_table]
  by_cases h : "castle_narratives" ∈ db.tables <;> simp [h]

theorem setup_database_iter_fix (n : Nat) (db₁ : SQLiteDb)
    (hfix : setup_database db₁ = .ok db₁) :
    setup_database_iter n db₁ = .ok db₁ := by
  induction n with
  | zero => rfl
  | succ m ih =>
    rw [setup_database_iter, hfix]
    exact ih

/-- **C9** (idempotent sink initialization). `setup_database` never fails, no
matter how many times it is called and against whatever database file is
already present (including one left by an earlier process): `n ≥ 1`
consecutive calls produce exactly the state one call produces, the
`castle_narratives` table exists afterwards, the rows are untouched, no
schema object is duplicated (distinct table names stay distinct, and the
table's multiplicity is `max(old, 1)`). -/
theorem idempotent_database_setup (db : SQLiteDb) (n : Nat) (hn : 1 ≤ n) :
    setup_database_iter n db = setup_database db
    ∧ (setup_database db).toOption.isSome = true
    ∧ ∀ db₁, setup_database db = .ok db₁ →
        "castle_narratives" ∈ db₁.tables
        ∧ db₁.rows = db.rows
        ∧ (db.tables.Nodup → db₁.tables.Nodup)
        ∧ db₁.tables.count "castle_narratives"
            = max (db.tables.count "castle_narratives") 1 := by
  obtain ⟨m, rfl⟩ : ∃ m, n = m + 1 := ⟨n - 1, by omega⟩
  have heq := setup_database_eq db
  by_cases hm : "castle_narratives" ∈ db.tables
  · rw [if_pos hm] at heq
    have hfix : setup_database db = .ok db := heq
    refine ⟨?_, ?_, ?_⟩
    · rw [setup_database_iter, hfix]
      exact setup_database_iter_fix m db hfix
    · rw [hfix]; rfl
    · intro db₁ h₁
      rw [hfix] at h₁
      injection h₁ with h₁
      subst h₁
      refine ⟨hm, rfl, fun h => h, ?_⟩
      have hpos : 0 < db.tables.count "castle_narratives" :=
        List.count_pos_iff.mpr hm
      omega
  · rw [if_neg hm] at heq
    have hmem : "castle_narratives"
        ∈ (db.tables ++ ["castle_narratives"]) := by simp
    have hfix : setup_database
        { db with tables := db.tables ++ ["castle_narratives"] }
        = .ok { db with tables := db.tables ++ ["castle_narratives"] } := by
      rw [setup_database_eq, if_pos hmem]
    refine ⟨?_, ?_, ?_⟩
    · rw [setup_database_iter, heq]
      exact setup_database_iter_fix m _ hfix
    · rw [heq]; rfl
    · intro db₁ h₁
      rw [heq] at h₁
      injection h₁ with h₁
      subst h₁
      refine ⟨hmem, rfl, ?_, ?_⟩
      · intro h
        simp [List.nodup_append, h, hm]
      · have h0 : db.tables.count "castle_narratives" = 0 :=
          List.count_eq_zero.mpr hm
        simp only [List.count_append, h0]
        simp

/-- Witness for C9: two consecutive setups of a fresh database file equal one
setup, which creates exactly the `castle_narratives` table. -/
theorem idempotent_database_setup_witness :
    setup_database_iter 2 { tables := [], rows := [] }
        = setup_database { tables := [], rows := [] }
    ∧ setup_database { tables := [], rows := [] }
        = .ok { tables := ["castle_narratives"], rows := [] } :=
  ⟨(idempotent_database_setup { tables := [], rows := [] } 2 (by decide)).1,
    by decide⟩

/-!
### The temporal view (source lines 516–527)
-/

theorem le_fst_of_mem_enumFrom {α : Type} (l : List α) (n : Nat)
    (p : Nat × α) (hp : p ∈ l.enumFrom n) : n ≤ p.1 := by
  induction l generalizing n with
  | nil => simp at hp
  | cons x xs ih =>
    rw [List.enumFrom_cons, List.mem_cons] at hp
    rcases hp with rfl | hp
    · exact Nat.le_refl n
    · exact Nat.le_of_succ_le (ih (n + 1) hp)

theorem enumFrom_fst_pairwise {α : Type} (l : List α) (n : Nat) :
    (l.enumFrom n).Pairwise (fun p q => p.1 < q.1) := by
  induction l generalizing n with
  | nil => simp
  | cons x xs ih =>
    rw [List.enumFrom_cons]
    refine List.Pairwise.cons ?_ (ih (n + 1))
    intro p hp
    exact Nat.lt_of_lt_of_le (Nat.lt_succ_self n)
      (le_fst_of_mem_enumFrom xs (n + 1) p hp)

theorem batchIdx_of_mem_segment (ies : List IntraEv) (k : Nat) (e : Ev)
    (he : e ∈ ies.map (tagBatch k) ++ [Ev.sleep 1]) :
    ∀ k', e.batchIdx? = some k' → k' = k := by
  intro k' hk
  rw [List.mem_append] at he
  rcases he with he | he
  · rw [List.mem_map] at he
    obtain ⟨ie, _, rfl⟩ := he
    cases ie with
    | start i =>
      simp [tagBatch, Ev.batchIdx?] at hk
      omega
    | settle i ok =>
      simp [tagBatch, Ev.batchIdx?] at hk
      omega
  · rw [List.mem_singleton] at he
    subst he
    simp [Ev.batchIdx?] at hk

theorem run_trace_pairwise (sched : List CastleData → List IntraEv)
    (castle_data : List CastleData) (batch_size : Nat) :
    (run_trace sched castle_data batch_size).Pairwise
      (fun e₁ e₂ => ∀ k₁ k₂, e₁.batchIdx? = some k₁ →
        e₂.batchIdx? = some k₂ → k₁ ≤ k₂) := by
  rw [run_trace, List.pairwise_flatten]
  constructor
  · intro seg hseg
    rw [List.mem_map] at hseg
    obtain ⟨p, _, rfl⟩ := hseg
    apply List.pairwise_of_forall_mem_list
    intro a ha b hb k₁ k₂ h₁ h₂
    rw [batchIdx_of_mem_segment (sched p.2) p.1 a ha k₁ h₁,
      batchIdx_of_mem_segment (sched p.2) p.1 b hb k₂ h₂]
  · rw [List.pairwise_map]
    refine List.Pairwise.imp ?_
      (enumFrom_fst_pairwise (source_batches castle_data batch_size) 0)
    intro p q hpq a ha b hb k₁ k₂ h₁ h₂
    have ha' := batchIdx_of_mem_segment (sched p.2) p.1 a ha k₁ h₁
    have hb' := batchIdx_of_mem_segment (sched q.2) q.1 b hb k₂ h₂
    omega

/-- **C6** (hard sequencing barrier between batches). In every run trace —
for every event-loop interleaving of the in-flight items of each batch — any
event belonging to batch `k₁` occurs at a strictly earlier trace position
than any event belonging to a later batch `k₂ > k₁`. In particular every item
of batch `k` settles before any item of batch `k + 1` starts: batches never
overlap in time, because the loop `await`s the whole batch (source line 521)
before the next iteration creates any new task. -/
theorem hard_batch_sequencing_barrier
    (sched : List CastleData → List IntraEv)
    (castle_data : List CastleData) (batch_size : Nat)
    (i j k₁ k₂ : Nat) (e₁ e₂ : Ev)
    (hi : (run_trace sched castle_data batch_size)[i]? = some e₁)
    (hj : (run_trace sched castle_data batch_size)[j]? = some e₂)
    (hk₁ : e₁.batchIdx? = some k₁) (hk₂ : e₂.batchIdx? = some k₂)
    (hlt : k₁ < k₂) : i < j := by
  have hp := run_trace_pairwise sched castle_data batch_size
  rw [List.pairwise_iff_getElem] at hp
  rw [List.getElem?_eq_some_iff] at hi hj
  obtain ⟨hilen, hieq⟩ := hi
  obtain ⟨hjlen, hjeq⟩ := hj
  rcases Nat.lt_trichotomy i j with h | h | h
  · exact h
  · exfalso
    subst h
    rw [hieq] at hjeq
    subst hjeq
    rw [hk₁] at hk₂
    injection hk₂ with hk₂
    omega
  · exfalso
    have hr := hp j i hjlen hilen h k₂ k₁
      (by rw [hjeq]; exact hk₂) (by rw [hieq]; exact hk₁)
    omega

/-- Witness for C6: for the two-batch run over `[X1, X2]` with batch size 1
under the concrete interleaving `demo_sched`, the settle event of batch 0
(position 1) precedes the start event of batch 1 (position 3). -/
theorem hard_batch_sequencing_barrier_witness : (1 : Nat) < 3 := by
  have htr : run_trace demo_sched [castleX1, castleX2] 1
      = [Ev.start 0 0, Ev.settle 0 0 true, Ev.sleep 1,
         Ev.start 1 0, Ev.settle 1 0 true, Ev.sleep 1] := by
    simp [run_trace, source_batches, rangeStep, demo_sched, tagBatch]
    rfl
  exact hard_batch_sequencing_barrier demo_sched [castleX1, castleX2] 1
    1 3 0 1 (Ev.settle 0 0 true) (Ev.start 1 0)
    (by rw [htr]; rfl) (by rw [htr]; rfl) rfl rfl (by decide)

theorem filter_isSleep_segment (ies : List IntraEv) (k : Nat) :
    (ies.map (tagBatch k) ++ [Ev.sleep 1]).filter Ev.isSleep
      = [Ev.sleep 1] := by
  rw [List.filter_append]
  have h0 : (ies.map (tagBatch k)).filter Ev.isSleep = [] := by
    rw [List.filter_eq_nil_iff]
    intro e he
    rw [List.mem_map] at he
    obtain ⟨ie, _, rfl⟩ := he
    cases ie <;> simp [tagBatch, Ev.isSleep]
  rw [h0]
  rfl

theorem flatten_map_const_singleton {α β : Type} (l : List α) (a : β) :
    (l.map (fun _ => [a])).flatten = List.replicate l.length a := by
  induction l with
  | nil => rfl
  | cons x xs ih => simp [List.replicate_succ, ih]

theorem run_trace_sleeps (sched : List CastleData → List IntraEv)
    (castle_data : List CastleData) (batch_size : Nat) :
    (run_trace sched castle_data batch_size).filter Ev.isSleep
      = List.replicate (source_batches castle_data batch_size).length
          (Ev.sleep 1) := by
  rw [run_trace, List.filter_flatten, List.map_map]
  have h1 : ((source_batches castle_data batch_size).enum).map
      (List.filter Ev.isSleep ∘ fun p => (sched p.2).map (tagBatch p.1)
        ++ [Ev.sleep 1])
      = ((source_batches castle_data batch_size).enum).map
          (fun _ => [Ev.sleep 1]) :=
    List.map_congr_left
      (fun p _ => filter_isSleep_segment (sched p.2) p.1)
  rw [h1, flatten_map_const_singleton]
  congr 1
  simp

/-- **C8 counterexample**. The pacing delay cannot be configured or skipped:
there is no way to call the dispatcher on a nonempty item list (with a valid
batch size) such that every pacing sleep in its trace has duration zero — the
`asyncio.sleep(1)` at source line 527 is hard-coded, and the call exposes no
delay parameter. -/
theorem pacing_delay_not_configurable_to_zero :
    ¬ ∃ (sched : List CastleData → List IntraEv)
        (castle_data : List CastleData) (batch_size : Nat),
        0 < batch_size ∧ castle_data ≠ []
        ∧ ∀ d, Ev.sleep d ∈ run_trace sched castle_data batch_size →
            d = 0 := by
  rintro ⟨sched, items, B, hB, hne, hzero⟩
  have hlen : 0 < (source_batches items B).length := by
    obtain ⟨b, rfl⟩ : ∃ b, B = b + 1 := ⟨B - 1, by omega⟩
    rw [source_batches_eq_chunksRec]
    cases items with
    | nil => exact absurd rfl hne
    | cons x xs => rw [chunksRec]; simp
  have hmem : Ev.sleep 1 ∈ (run_trace sched items B).filter Ev.isSleep := by
    rw [run_trace_sleeps]
    exact List.mem_replicate.mpr ⟨by omega, rfl⟩
  have h1 := hzero 1 (List.mem_of_mem_filter hmem)
  omega

/-- **C8 amended**. After each batch — including the last — the dispatcher
sleeps a fixed, hard-coded 1 time unit (`asyncio.sleep(1)`): the trace of any
run contains exactly one sleep event per batch, every one of duration 1. The
delay is not configurable and cannot be set to zero: the function takes no
delay parameter. -/
theorem fixed_unit_pacing_delay (sched : List CastleData → List IntraEv)
    (castle_data : List CastleData) (batch_size : Nat)
    (_hB : 0 < batch_size) :
    (run_trace sched castle_data batch_size).filter Ev.isSleep
      = List.replicate (source_batches castle_data batch_size).length
          (Ev.sleep 1)
    ∧ ∀ d, Ev.sleep d ∈ run_trace sched castle_data batch_size → d = 1 := by
  refine ⟨run_trace_sleeps sched castle_data batch_size, ?_⟩
  intro d hd
  have hmem : Ev.sleep d
      ∈ (run_trace sched castle_data batch_size).filter Ev.isSleep :=
    List.mem_filter.mpr ⟨hd, rfl⟩
  rw [run_trace_sleeps] at hmem
  have := List.eq_of_mem_replicate hmem
  injection this

/-- Witness for C8: the one-batch run over `[X1]` with batch size 1 performs
exactly one pacing sleep, of duration 1. -/
theorem fixed_unit_pacing_delay_witness :
    (run_trace demo_sched [castleX1] 1).filter Ev.isSleep
      = List.replicate (source_batches [castleX1] 1).length (Ev.sleep 1) :=
  (fixed_unit_pacing_delay demo_sched [castleX1] 1 (by decide)).1

end CastleGen
